import Mathlib

/-
Verification development for the QClickEdit widget module (QClickEdit.py).

The module composes a flat text label (a QPushButton) with one native input
widget (QSpinBox, QLineEdit, QTimeEdit or QComboBox).  Clicking the label
hides it and shows the input widget; a process-wide registry of instances is
swept on focus loss and on (patched) top-level mouse presses to collapse
open editors back to label mode.

The embedding below models:
  - Python values and errors as far as the type checks in the module need
    them (PyVal, PyErr, pyStr);
  - each variant adapter (value store of the native widget, the label text,
    and the change-signal handlers wired in _createInputWidget) as a pure
    state-transformer;
  - the registry / visibility behaviour (_setToEdit, _freezeInputPrecheck,
    focusOutEvent, _showText, _showInputField) as a transition system over
    a list of widget records, with the set of widgets currently under the
    mouse supplied as an environment to each event;
  - the top-level-window mousePressEvent wrapping done in __init__ as a
    second small transition system.
-/

/-- Model of a QTime value (hour, minute, second, millisecond). -/
structure QTimeV where
  h : Nat
  m : Nat
  s : Nat
  ms : Nat
deriving DecidableEq

/-- Model of a datetime.time value (hour, minute, second, microsecond). -/
structure DTime where
  h : Nat
  m : Nat
  s : Nat
  us : Nat
deriving DecidableEq

/-- The Python values the module inspects: strings, ints, booleans, None,
lists, datetime.time values and QTime values.  The sentinel argument value
False used throughout the module is PyVal.bool false. -/
inductive PyVal where
  | str (s : String)
  | int (n : Int)
  | bool (b : Bool)
  | pynone
  | list (xs : List PyVal)
  | dtime (t : DTime)
  | qtime (t : QTimeV)

/-- The Python exceptions the module can raise on the modelled paths. -/
inductive PyErr where
  | typeError
  | indexError
  | attributeError
deriving DecidableEq

/-- Host conversion QTime(value) from a datetime.time value: hours, minutes
and seconds carry over, milliseconds come from the microseconds. -/
def qtimeOfD (t : DTime) : QTimeV :=
  { h := t.h, m := t.m, s := t.s, ms := t.us / 1000 }

/-- Two-digit zero padding for the host time renderings. -/
def pad2 (n : Nat) : String :=
  if n < 10 then "0" ++ toString n else toString n

/-- Host builtin str(datetime.time), modelled as the usual HH:MM:SS form. -/
def dtimeStr (t : DTime) : String :=
  pad2 t.h ++ ":" ++ pad2 t.m ++ ":" ++ pad2 t.s

/-- Host repr of a QTime object, modelled as an injective rendering. -/
def qtimeReprStr (t : QTimeV) : String :=
  "QTime(" ++ toString t.h ++ ", " ++ toString t.m ++ ", " ++
    toString t.s ++ ", " ++ toString t.ms ++ ")"

mutual

/-- Host builtin repr(), used by str() on the elements of a list. -/
def pyRepr : PyVal → String
  | .str s => "\x27" ++ s ++ "\x27"
  | .int n => toString n
  | .bool true => "True"
  | .bool false => "False"
  | .pynone => "None"
  | .list xs => "[" ++ String.intercalate ", " (pyReprList xs) ++ "]"
  | .dtime t => "datetime.time(" ++ toString t.h ++ ", " ++ toString t.m ++
      ", " ++ toString t.s ++ ", " ++ toString t.us ++ ")"
  | .qtime t => qtimeReprStr t

/-- repr() mapped over a list of values. -/
def pyReprList : List PyVal → List String
  | [] => []
  | x :: xs => pyRepr x :: pyReprList xs

end

/-- Host builtin str(): the identity on strings, repr-like elsewhere. -/
def pyStr : PyVal → String
  | .str s => s
  | .dtime t => dtimeStr t
  | v => pyRepr v

/-- QClickEdit._addSuffix: appends the configured suffix (with a space)
when the suffix is truthy, i.e. a non-empty string; the suffix field is
False (modelled none) or a string. -/
def addSuffix (sfx : Option String) (cur : String) : String :=
  match sfx with
  | some s => if s = "" then cur else cur ++ " " ++ s
  | none => cur

/-- The test `isinstance(x, str) or (x is False)` used on the type_of_field
and suffix arguments of QClickEdit.__init__. -/
def isStrOrFalse : PyVal → Bool
  | .str _ => true
  | .bool false => true
  | _ => false

/-- The two argument type checks at the top of QClickEdit.__init__
(lines 57 to 60): a TypeError unless type_of_field is a string or False,
then a TypeError unless suffix is a string or False. -/
def clickEditArgCheck (typeOfField sfx : PyVal) : Except PyErr Unit :=
  if isStrOrFalse typeOfField then
    if isStrOrFalse sfx then .ok () else .error .typeError
  else .error .typeError

/-! ## QSpinBox variant

The native spin box is modelled as a plain integer store (its range
configuration belongs to the host framework, not to this module).  The
valueChanged signal is wired to _updateCurrentValue, which rewrites the
label text from the new value; the host emits the signal only when the
stored value actually changes. -/

/-- State of a QSpinBox QClickEdit: native value, label text, suffix. -/
structure SpinState where
  value : Int
  labelText : String
  suffix : Option String
deriving DecidableEq

/-- Native QSpinBox.setValue plus the valueChanged signal wired to
QSpinBox._updateCurrentValue. -/
def spinInputSetValue (v : Int) (s : SpinState) : SpinState :=
  if v = s.value then s
  else { s with value := v, labelText := addSuffix s.suffix (toString v) }

/-- QSpinBox.setValue (module lines 202 to 207): sets the label text to the
suffixed value, then sets the native widget value. -/
def spinSetValue (v : Int) (s : SpinState) : SpinState :=
  spinInputSetValue v { s with labelText := addSuffix s.suffix (toString v) }

/-- QSpinBox.getValue: the native widget value. -/
def spinGetValue (s : SpinState) : Int := s.value

/-! ## QLineEdit variant -/

/-- State of a QLineEdit QClickEdit: native text, label text, suffix. -/
structure LineState where
  text : String
  labelText : String
  suffix : Option String
deriving DecidableEq

/-- Native QLineEdit.setText plus the textChanged signal wired to
QLineEdit._updateCurrentValue. -/
def lineInputSetText (t : String) (s : LineState) : LineState :=
  if t = s.text then s
  else { s with text := t, labelText := addSuffix s.suffix t }

/-- QLineEdit.setValue (module lines 241 to 244): coerces the argument with
str() and sets the native text. -/
def lineSetValue (v : PyVal) (s : LineState) : LineState :=
  lineInputSetText (pyStr v) s

/-- QLineEdit.getValue: the native widget text. -/
def lineGetValue (s : LineState) : String := s.text

/-! ## QTimeEdit variant -/

/-- State of a QTimeEdit QClickEdit: native time, label text, the display
format, and the _current_value attribute written by _inputCheck. -/
structure TimeState where
  time : QTimeV
  labelText : String
  displayFormat : String
  currentVal : Option QTimeV
deriving DecidableEq

/-- Host QTime.toString(format), modelled as an injective rendering of the
format string and the time. -/
def qtimeToString (fmt : String) (t : QTimeV) : String :=
  fmt ++ "|" ++ toString t.h ++ ":" ++ toString t.m ++ ":" ++
    toString t.s ++ "." ++ toString t.ms

/-- QTimeEdit._inputCheck (module lines 289 to 298): datetime.time values
are converted to QTime, QTime values pass through, the sentinel False
becomes QTime(0, 0, 0, 0), and anything else raises TypeError.  The result
is the value stored into self._current_value. -/
def qtimeInputCheck (v : PyVal) : Except PyErr QTimeV :=
  match v with
  | .dtime t => .ok (qtimeOfD t)
  | .qtime t => .ok t
  | .bool false => .ok { h := 0, m := 0, s := 0, ms := 0 }
  | _ => .error .typeError

/-- Classifier for the values _inputCheck accepts. -/
def isTimeAcceptable : PyVal → Bool
  | .dtime _ => true
  | .qtime _ => true
  | .bool false => true
  | _ => false

/-- The attribute access value.toString(...) in QTimeEdit.setValue: only a
QTime object has a toString method; any other value raises AttributeError
at that point. -/
def pyToStringHms (v : PyVal) : Except PyErr String :=
  match v with
  | .qtime t => .ok (qtimeToString "h:mm:ss a" t)
  | _ => .error .attributeError

/-- Native QTimeEdit.setTime plus the timeChanged signal wired to
QTimeEdit._updateCurrentValue, which rewrites the label from the new time
using the stored display format. -/
def qtimeSetTime (t : QTimeV) (s : TimeState) : TimeState :=
  if t = s.time then s
  else { s with time := t, labelText := qtimeToString s.displayFormat t }

/-- QTimeEdit.setValue (module lines 306 to 311): runs _inputCheck on the
argument (raising TypeError for bad types before any mutation), then sets
the label text from value.toString and the native time.  The returned pair
is the Python object state after the call and the exception, if any,
propagating out of it. -/
def qtimeSetValue (v : PyVal) (s : TimeState) : TimeState × Option PyErr :=
  match qtimeInputCheck v with
  | .error e => (s, some e)
  | .ok cv =>
    let s1 := { s with currentVal := some cv }
    match pyToStringHms v with
    | .error e => (s1, some e)
    | .ok txt => (qtimeSetTime cv { s1 with labelText := txt }, Option.none)

/-- QTimeEdit.getValue: the native widget time. -/
def qtimeGetValue (s : TimeState) : QTimeV := s.time

/-! ## QComboBox variant -/

/-- State of a QComboBox QClickEdit: the native item list and current
index, and the label text. -/
structure ComboState where
  items : List String
  currentIndex : Int
  labelText : String
deriving DecidableEq

/-- Native QComboBox.currentText: the item at the current index, or the
empty string when the index is -1 (or otherwise out of range). -/
def comboCurrentText (s : ComboState) : String :=
  match s.currentIndex with
  | .ofNat n => s.items.getD n ""
  | .negSucc _ => ""

/-- Native QComboBox.findText with the default exact-match flags: the index
of the first item equal to the text, or -1 when there is none. -/
def comboFindText (t : String) : List String → Int
  | [] => -1
  | x :: xs =>
    if x = t then 0
    else
      match comboFindText t xs with
      | .ofNat n => .ofNat (n + 1)
      | .negSucc m => .negSucc m

/-- Native QComboBox.setCurrentIndex plus the currentIndexChanged signal
wired to QComboBox._updateCurrentValue, which rewrites the label text from
currentText; the host emits the signal only when the index changes. -/
def comboSetCurrentIndex (i : Int) (s : ComboState) : ComboState :=
  if i = s.currentIndex then s
  else
    let s1 := { s with currentIndex := i }
    { s1 with labelText := comboCurrentText s1 }

/-- QComboBox.setValue (module lines 376 to 381): coerces the argument with
str(), sets the current index to findText of it (-1 when absent), then
overwrites the label text with the coerced value. -/
def comboSetValue (v : PyVal) (s : ComboState) : ComboState :=
  let value := pyStr v
  let s1 := comboSetCurrentIndex (comboFindText value s.items) s
  { s1 with labelText := value }

/-- QComboBox.getValue: the native currentText. -/
def comboGetValue (s : ComboState) : String := comboCurrentText s

/-- Native QComboBox.addItem plus the host behaviour that inserting the
first item into an empty combo box selects it (emitting
currentIndexChanged, which rewrites the label text). -/
def comboAddItem (it : String) (s : ComboState) : ComboState :=
  let s1 := { s with items := s.items ++ [it] }
  if s.items.isEmpty then comboSetCurrentIndex 0 s1 else s1

/-- QComboBox._inputCheck (module lines 354 to 365).  For a list argument
it assigns self._current_value from str of the head (an IndexError on the
empty list, since values[0] is read unguarded) and returns str of every
element; for any other argument it returns the single str-ed value and
leaves self._current_value untouched.  The first component threads the
_current_value attribute, which is absent (none) on a fresh object. -/
def comboInputCheck (values : PyVal) (cur : Option String) :
    Except PyErr (Option String × List String) :=
  match values with
  | .list vs =>
    match vs with
    | [] => .error .indexError
    | v0 :: _ => .ok (some (pyStr v0), vs.map pyStr)
  | v => .ok (cur, [pyStr v])

/-- QComboBox.__init__ (module lines 338 to 345) restricted to the state of
the native combo box and the label.  It runs _inputCheck on the argument,
then QClickEdit.__init__ with self._current_value as the current value: on
a fresh object that attribute exists only if _inputCheck assigned it, so
reading it raises AttributeError otherwise.  QClickEdit.__init__ creates
the (empty) native combo at index -1, the label, and calls setValue with
the current value; afterwards every item from _inputCheck is added. -/
def comboInit (values : PyVal) : Except PyErr ComboState :=
  match comboInputCheck values Option.none with
  | .error e => .error e
  | .ok (curOpt, items) =>
    match curOpt with
    | Option.none => .error .attributeError
    | some cv =>
      let s0 : ComboState := { items := [], currentIndex := -1, labelText := "" }
      let s1 := comboSetValue (.str cv) s0
      .ok (items.foldl (fun s it => comboAddItem it s) s1)

/-! ## Registry and focus coordination

QClickEdit._registry is a process-wide list of live instances.  The sweep
_freezeInputPrecheck iterates over the whole registry and, for every widget
whose input widget is visible and not under the mouse, runs _showText
(hiding the input widget and showing the label).  The sweep runs from
_setToEdit (label activation), focusOutEvent (focus loss of the input
widget), and the patched mousePressEvent of every wrapped top-level window.

Widgets are modelled as records carrying an identity, the identity of
their top-level window, the visibility of their input widget (label mode
is the negation), and the QSpinBox-variant value, label text and suffix.
The set of widget identities currently under the mouse is an environment
supplied with each event. -/

/-- One registered QClickEdit instance. -/
structure CEWidget where
  wid : Nat
  window : Nat
  inputVisible : Bool
  value : Int
  labelText : String
  suffix : Option String
deriving DecidableEq

/-- QClickEdit._freezeInputPrecheck (module lines 111 to 117): every
registered widget, in any window, whose input widget is visible and not
under the mouse is put back to label mode by _showText. -/
def sweepF (under : List Nat) (reg : List CEWidget) : List CEWidget :=
  reg.map fun w =>
    if w.inputVisible ∧ w.wid ∉ under then { w with inputVisible := false } else w

/-- QClickEdit._showInputField for the widget with the given identity:
hides its label and shows its input widget. -/
def showInputField (i : Nat) (reg : List CEWidget) : List CEWidget :=
  reg.map fun w => if w.wid = i then { w with inputVisible := true } else w

/-- QClickEdit._setToEdit (module lines 102 to 109): first the sweep over
the whole registry, then _showInputField on the activated widget. -/
def setToEdit (i : Nat) (under : List Nat) (reg : List CEWidget) : List CEWidget :=
  showInputField i (sweepF under reg)

/-- Events of the focus-coordination system: construction of a new widget
(QClickEdit.__init__ appends it to the registry with the input widget
hidden and the label showing the suffixed value), label activation
(_setToEdit), a defocus sweep (focusOutEvent of an input widget, or a
mouse press on a wrapped window, both of which run the original handler
and then _freezeInputPrecheck), a user edit through the native widget
(change signal wired to _updateCurrentValue), and setValue. -/
inductive FEv where
  | construct (wid window : Nat) (value : Int) (sfx : Option String)
  | activate (wid : Nat) (under : List Nat)
  | defocus (under : List Nat)
  | edit (wid : Nat) (value : Int)
  | setVal (wid : Nat) (value : Int)
deriving DecidableEq

/-- One step of the focus-coordination system. -/
def fstep : FEv → List CEWidget → List CEWidget
  | .construct i win v sfx, reg =>
    reg ++ [{ wid := i, window := win, inputVisible := false, value := v,
              labelText := addSuffix sfx (toString v), suffix := sfx }]
  | .activate i under, reg => setToEdit i under reg
  | .defocus under, reg => sweepF under reg
  | .edit i v, reg =>
    reg.map fun w =>
      if w.wid = i then
        if v = w.value then w
        else { w with value := v, labelText := addSuffix w.suffix (toString v) }
      else w
  | .setVal i v, reg =>
    reg.map fun w =>
      if w.wid = i then
        { w with value := v, labelText := addSuffix w.suffix (toString v) }
      else w

/-- Run of the focus-coordination system from the empty registry. -/
def frun (tr : List FEv) : List CEWidget :=
  tr.foldl (fun s e => fstep e s) []

/-- An event is benign when it is not a label activation performed while
the pointer is over the input widget of a different widget. -/
def benignEv : FEv → Bool
  | .activate i under => under.all fun j => j == i
  | _ => true

/-- The widget identities introduced by the construction events of a
trace, in order. -/
def constructWids : List FEv → List Nat
  | [] => []
  | .construct i _ _ _ :: tr => i :: constructWids tr
  | _ :: tr => constructWids tr

/-- The claimed per-window bound: at most one registered widget of each
top-level window has its input widget visible. -/
def atMostOnePerWindow (reg : List CEWidget) : Prop :=
  ∀ win : Nat, reg.countP (fun w => w.inputVisible && w.window == win) ≤ 1

/-! ## Top-level window mousePressEvent wrapping

QClickEdit.__init__ (module lines 80 to 88) iterates over
QApplication.topLevelWidgets(); every window not yet recorded in
_top_widgets_modified is recorded and gets its mousePressEvent rebound to
a partial application of _topWidgetMousePressEvent closing over the
previous handler.  The wrapped handler runs the original handler on the
event and then _freezeInputPrecheck. -/

/-- A mousePressEvent handler: either the original framework handler or a
wrapping of a previous handler by _topWidgetMousePressEvent. -/
inductive Handler where
  | original : Handler
  | wrapped : Handler → Handler
deriving DecidableEq

/-- The behaviour of a handler, given the effect of the original handler
and of the sweep: a wrapped handler runs the handler it closed over first
and the sweep afterwards (module lines 92 to 100). -/
def runHandler {α : Type} (orig sweepAct : α → α) : Handler → α → α
  | .original => orig
  | .wrapped h => fun s => sweepAct (runHandler orig sweepAct h s)

/-- A top-level window: its identity and its current handler. -/
structure TopWin where
  wid : Nat
  handler : Handler
deriving DecidableEq

/-- The wrapping pass of QClickEdit.__init__ over the current top-level
windows: windows already in _top_widgets_modified are skipped; every other
window is appended to _top_widgets_modified (which grows during the pass)
and has its handler wrapped. -/
def wrapPass : List TopWin → List Nat → List TopWin × List Nat
  | [], modified => ([], modified)
  | w :: ws, modified =>
    if w.wid ∈ modified then
      let r := wrapPass ws modified
      (w :: r.1, r.2)
    else
      let r := wrapPass ws (modified ++ [w.wid])
      ({ w with handler := .wrapped w.handler } :: r.1, r.2)

/-- State of the wrapping system: the live top-level windows and the
_top_widgets_modified registry. -/
structure WrapState where
  wins : List TopWin
  modified : List Nat
deriving DecidableEq

/-- Events of the wrapping system: the host creates a new top-level window
(with the framework handler; window objects are distinct, which the model
expresses by ignoring a duplicate identity), or a QClickEdit widget is
constructed, running the wrapping pass. -/
inductive WEv where
  | newWin (wid : Nat)
  | constructQCE
deriving DecidableEq

/-- One step of the wrapping system. -/
def wstep : WEv → WrapState → WrapState
  | .newWin i, s =>
    if s.wins.any (fun w => w.wid == i) then s
    else { s with wins := s.wins ++ [{ wid := i, handler := .original }] }
  | .constructQCE, s =>
    let r := wrapPass s.wins s.modified
    { wins := r.1, modified := r.2 }

/-- Run of the wrapping system from no windows and an empty registry. -/
def wrun (tr : List WEv) : WrapState :=
  tr.foldl (fun s e => wstep e s) { wins := [], modified := [] }

/-- Invariant of the wrapping system: window identities are unique,
_top_widgets_modified only holds identities of live windows, and a window
is wrapped exactly once if recorded there and not at all otherwise. -/
def WInv (s : WrapState) : Prop :=
  (s.wins.map (fun w => w.wid)).Nodup ∧
  (∀ x ∈ s.modified, x ∈ s.wins.map (fun w => w.wid)) ∧
  (∀ w ∈ s.wins,
    (w.wid ∈ s.modified → w.handler = .wrapped .original) ∧
    (w.wid ∉ s.modified → w.handler = .original))

/-! ## Per-variant label maintenance

The registry model above carries QSpinBox-variant value and label fields;
its value and label dimension is used for nothing beyond that variant.
Label maintenance is modelled per variant here, over the adapter states
defined earlier, because the variants genuinely differ: the QSpinBox and
QLineEdit change-signal handlers keep the label exactly in sync with the
value, QTimeEdit keeps the label a rendering of the current time (though
setValue hardcodes the h:mm:ss a format at line 310), and QComboBox can
leave the label showing a value the widget does not hold. -/

/-- Operations on a QSpinBox QClickEdit after construction: setValue, or
a user edit of the native spin box (valueChanged signal). -/
inductive SpinEv where
  | setVal (v : Int)
  | userEdit (v : Int)
deriving DecidableEq

/-- One operation on the spin variant. -/
def spinStep : SpinEv → SpinState → SpinState
  | .setVal v, s => spinSetValue v s
  | .userEdit v, s => spinInputSetValue v s

/-- Construction of the spin variant: the native spin box starts at 0,
_createTextWidget sets the label from getValue(), then __init__ calls
setValue with the requested value. -/
def spinInit (v : Int) (sfx : Option String) : SpinState :=
  spinSetValue v
    { value := 0, labelText := addSuffix sfx (toString (0 : Int)), suffix := sfx }

/-- A constructed spin widget after any sequence of operations. -/
def spinRun (v : Int) (sfx : Option String) (evs : List SpinEv) : SpinState :=
  evs.foldl (fun s e => spinStep e s) (spinInit v sfx)

/-- Operations on a QLineEdit QClickEdit after construction: setValue, or
a user edit of the native line edit (textChanged signal). -/
inductive LineEv where
  | setVal (v : PyVal)
  | userEdit (t : String)

/-- One operation on the line variant. -/
def lineStep : LineEv → LineState → LineState
  | .setVal v, s => lineSetValue v s
  | .userEdit t, s => lineInputSetText t s

/-- Construction of the line variant: the native line edit starts empty,
_createTextWidget sets the label from getValue(), then __init__ calls
setValue with the requested value. -/
def lineInit (v : PyVal) (sfx : Option String) : LineState :=
  lineSetValue v { text := "", labelText := addSuffix sfx "", suffix := sfx }

/-- A constructed line widget after any sequence of operations. -/
def lineRun (v : PyVal) (sfx : Option String) (evs : List LineEv) : LineState :=
  evs.foldl (fun s e => lineStep e s) (lineInit v sfx)

/-- QTimeEdit.setDisplayFormat (module lines 313 to 324): rewrites the
label from the current time in the new format and stores the format. -/
def qtimeSetDisplayFormat (f : String) (s : TimeState) : TimeState :=
  { s with labelText := qtimeToString f s.time, displayFormat := f }

/-- Operations on a QTimeEdit QClickEdit after construction: setValue
(whose state effect survives even when it raises), a user edit of the
native time edit (timeChanged signal), or setDisplayFormat. -/
inductive TimeEv where
  | setVal (v : PyVal)
  | userEdit (t : QTimeV)
  | setFmt (f : String)

/-- One operation on the time variant. -/
def timeStep : TimeEv → TimeState → TimeState
  | .setVal v, s => (qtimeSetValue v s).1
  | .userEdit t, s => qtimeSetTime t s
  | .setFmt f, s => qtimeSetDisplayFormat f s

/-- Construction of the time variant (module lines 254 to 262): the
argument goes through _inputCheck, the native time edit starts at
midnight, _createTextWidget sets the label from str of getValue(), the
display format is stored, and __init__ calls setValue with the checked
QTime. -/
def timeInit (v : PyVal) (fmt : String) : Except PyErr TimeState :=
  match qtimeInputCheck v with
  | .error e => .error e
  | .ok cv =>
    .ok (qtimeSetValue (.qtime cv)
      { time := { h := 0, m := 0, s := 0, ms := 0 },
        labelText := addSuffix Option.none
          (pyStr (.qtime { h := 0, m := 0, s := 0, ms := 0 })),
        displayFormat := fmt,
        currentVal := some cv }).1

/-- A constructed time widget after any sequence of operations. -/
def timeRun (v : PyVal) (fmt : String) (evs : List TimeEv) : Except PyErr TimeState :=
  match timeInit v fmt with
  | .error e => .error e
  | .ok s0 => .ok (evs.foldl (fun s e => timeStep e s) s0)

/-- The label of a time widget is some format rendering of the current
time (setValue uses the hardcoded h:mm:ss a format, the timeChanged
signal and setDisplayFormat use the stored display format). -/
def timeLabelRendered (s : TimeState) : Prop :=
  ∃ fmt, s.labelText = qtimeToString fmt s.time

/-! ## Theorems -/

/-- findText returns the position of the first matching item. -/
theorem comboFindText_of_mem (items : List String) (t : String) (h : t ∈ items) :
    ∃ n : Nat, comboFindText t items = Int.ofNat n ∧ items.getD n "" = t := by
  induction items with
  | nil => cases h
  | cons x xs ih =>
    by_cases hx : x = t
    · exact ⟨0, by simp [comboFindText, hx], by simp [hx]⟩
    · have ht : t ∈ xs := by
        rcases List.mem_cons.mp h with h1 | h1
        · exact absurd h1.symm hx
        · exact h1
      obtain ⟨n, h1, h2⟩ := ih ht
      refine ⟨n + 1, ?_, ?_⟩
      · simp [comboFindText, hx, h1]
      · simpa using h2

/-- findText returns -1 when no item matches. -/
theorem comboFindText_of_not_mem (items : List String) (t : String) (h : t ∉ items) :
    comboFindText t items = -1 := by
  induction items with
  | nil => rfl
  | cons x xs ih =>
    have hx : ¬ x = t := fun e => h (e ▸ List.mem_cons_self x xs)
    have ht : t ∉ xs := fun m => h (List.mem_cons_of_mem x m)
    simp only [comboFindText]
    rw [if_neg hx, ih ht]
    rfl

/-- Setting a value on the combo variant and reading it back yields the
value exactly when it is among the items, and the empty string otherwise
(findText yields -1 and currentText of index -1 is empty). -/
theorem comboSetValue_getValue (v : PyVal) (s : ComboState) :
    comboGetValue (comboSetValue v s) = if pyStr v ∈ s.items then pyStr v else "" := by
  obtain ⟨items, idx, lbl⟩ := s
  by_cases hm : pyStr v ∈ items
  · obtain ⟨n, h1, h2⟩ := comboFindText_of_mem items (pyStr v) hm
    simp only [comboSetValue, comboSetCurrentIndex, comboGetValue, if_pos hm]
    rw [h1]
    by_cases he : (Int.ofNat n) = idx
    · simp only [if_pos he, comboCurrentText, ← he]
      exact h2
    · simp only [if_neg he, comboCurrentText]
      exact h2
  · simp only [comboSetValue, comboGetValue, if_neg hm]
    rw [comboFindText_of_not_mem items (pyStr v) hm]
    unfold comboSetCurrentIndex
    by_cases he : (-1 : Int) = idx
    · rw [if_pos he, ← he]
      rfl
    · rw [if_neg he]
      rfl

/-- _inputCheck of the time variant rejects every value that is not a
datetime.time, a QTime, or the sentinel False. -/
theorem qtimeInputCheck_not_acceptable (v : PyVal) (hv : isTimeAcceptable v = false) :
    qtimeInputCheck v = Except.error PyErr.typeError := by
  cases v with
  | str s => rfl
  | int n => rfl
  | bool b =>
    cases b with
    | false => simp [isTimeAcceptable] at hv
    | true => rfl
  | pynone => rfl
  | list xs => rfl
  | dtime t => simp [isTimeAcceptable] at hv
  | qtime t => simp [isTimeAcceptable] at hv

/-- C4 (amended): setting then getting a value returns the normalized
value for the spin variant (the integer), the line variant (str of the
value) and the time variant (the QTime); for the combo variant it returns
str of the value exactly when that string is among the items, and the
empty string otherwise. -/
theorem c4_set_get_roundtrip :
    (∀ (v : Int) (s : SpinState), spinGetValue (spinSetValue v s) = v) ∧
    (∀ (v : PyVal) (s : LineState), lineGetValue (lineSetValue v s) = pyStr v) ∧
    (∀ (t : QTimeV) (s : TimeState),
      (qtimeSetValue (.qtime t) s).2 = Option.none ∧
      qtimeGetValue (qtimeSetValue (.qtime t) s).1 = t) ∧
    (∀ (v : PyVal) (s : ComboState),
      comboGetValue (comboSetValue v s) = if pyStr v ∈ s.items then pyStr v else "") := by
  refine ⟨?_, ?_, ?_, comboSetValue_getValue⟩
  · intro v s
    by_cases h : v = s.value <;>
      simp [spinSetValue, spinInputSetValue, spinGetValue, h]
  · intro v s
    by_cases h : pyStr v = s.text <;>
      simp [lineSetValue, lineInputSetText, lineGetValue, h]
  · intro t s
    by_cases h : t = s.time <;>
      simp [qtimeSetValue, qtimeInputCheck, pyToStringHms, qtimeSetTime, qtimeGetValue, h]

/-- C4 counterexample: on a combo widget as constructed from the item
list containing only a, setValue of b raises nothing yet getValue then
returns the empty string, not str of b. -/
theorem c4_combo_roundtrip_cx :
    comboInit (PyVal.list [PyVal.str "a"]) =
      Except.ok { items := ["a"], currentIndex := 0, labelText := "a" } ∧
    comboGetValue (comboSetValue (PyVal.str "b")
      { items := ["a"], currentIndex := 0, labelText := "a" }) ≠ pyStr (PyVal.str "b") := by
  exact ⟨rfl, by decide⟩

/-- C5 (code bug): constructing the combo variant from a single non-list
value raises AttributeError, because the non-list branch of _inputCheck
never assigns self._current_value and __init__ then reads that attribute;
the class docstring promises the value becomes the sole item instead.  For
a list the construction succeeds as documented. -/
theorem c5_single_value_attribute_error :
    comboInit (PyVal.str "abc") = Except.error PyErr.attributeError ∧
    comboInit (PyVal.list [PyVal.str "abc"]) =
      Except.ok { items := ["abc"], currentIndex := 0, labelText := "abc" } :=
  ⟨rfl, rfl⟩

/-- C6: the time-value coercion shared by the constructor and setValue
accepts datetime.time values (converted to QTime), QTime values, and the
sentinel False (mapped to midnight), and raises TypeError for every value
of any other type. -/
theorem c6_time_value_coercion :
    (∀ t : DTime, qtimeInputCheck (.dtime t) = .ok (qtimeOfD t)) ∧
    (∀ t : QTimeV, qtimeInputCheck (.qtime t) = .ok t) ∧
    qtimeInputCheck (.bool false) = .ok { h := 0, m := 0, s := 0, ms := 0 } ∧
    (∀ v : PyVal, isTimeAcceptable v = false →
      qtimeInputCheck v = Except.error PyErr.typeError) :=
  ⟨fun _ => rfl, fun _ => rfl, rfl, qtimeInputCheck_not_acceptable⟩

/-- C6 witness: a string is rejected with TypeError. -/
theorem c6_time_value_coercion_witness :
    qtimeInputCheck (PyVal.str "noon") = Except.error PyErr.typeError :=
  c6_time_value_coercion.2.2.2 (PyVal.str "noon") (by decide)

/-- C7: the constructor argument checks raise TypeError exactly when the
type_of_field argument is neither a string nor False, or the suffix
argument is neither a string nor False, and pass otherwise. -/
theorem c7_ctor_type_checks :
    ∀ p sfx : PyVal,
      (clickEditArgCheck p sfx = Except.error PyErr.typeError ↔
        (isStrOrFalse p = false ∨ isStrOrFalse sfx = false)) ∧
      (clickEditArgCheck p sfx = Except.ok () ↔
        (isStrOrFalse p = true ∧ isStrOrFalse sfx = true)) := by
  intro p sfx
  cases hp : isStrOrFalse p <;> cases hs : isStrOrFalse sfx <;>
    simp [clickEditArgCheck, hp, hs]

/-- C9: constructing the combo variant from the empty list raises an
unguarded IndexError from the values[0] read in _inputCheck. -/
theorem c9_empty_list_index_error :
    comboInit (PyVal.list []) = Except.error PyErr.indexError := rfl

/-- C10: QTimeEdit.setValue is atomic on type error: for every argument
that is neither datetime.time, QTime nor False it raises TypeError before
any mutation, leaving the whole widget state (label text and native time
included) unchanged. -/
theorem c10_setvalue_atomic_on_type_error :
    ∀ (v : PyVal) (s : TimeState), isTimeAcceptable v = false →
      qtimeSetValue v s = (s, some PyErr.typeError) := by
  intro v s hv
  simp [qtimeSetValue, qtimeInputCheck_not_acceptable v hv]

/-- C10 witness: setValue of None on a concrete widget state raises
TypeError and leaves the state unchanged. -/
theorem c10_setvalue_atomic_witness :
    qtimeSetValue PyVal.pynone
        { time := { h := 1, m := 2, s := 3, ms := 4 }, labelText := "lbl",
          displayFormat := "h:mm:ss a", currentVal := Option.none } =
      ({ time := { h := 1, m := 2, s := 3, ms := 4 }, labelText := "lbl",
         displayFormat := "h:mm:ss a", currentVal := Option.none },
        some PyErr.typeError) :=
  c10_setvalue_atomic_on_type_error PyVal.pynone _ (by decide)

/-- countP is monotone under pointwise implication of predicates. -/
theorem countP_le_of_imp {α : Type} (l : List α) (p q : α → Bool)
    (h : ∀ a ∈ l, p a = true → q a = true) : l.countP p ≤ l.countP q := by
  induction l with
  | nil => simp
  | cons a l ih =>
    have h2 : ∀ x ∈ l, p x = true → q x = true :=
      fun x hx => h x (List.mem_cons_of_mem a hx)
    have hle := ih h2
    simp only [List.countP_cons]
    cases hp : p a with
    | true =>
      have hq := h a (List.mem_cons_self a l) hp
      simp [hq]
      omega
    | false =>
      cases hq : q a <;> simp <;> omega

/-- countP only depends on the pointwise values of the predicate. -/
theorem countP_congr_own {α : Type} (l : List α) (p q : α → Bool)
    (h : ∀ a ∈ l, p a = q a) : l.countP p = l.countP q := by
  induction l with
  | nil => rfl
  | cons a l ih =>
    simp only [List.countP_cons]
    rw [h a (List.mem_cons_self a l),
      ih fun x hx => h x (List.mem_cons_of_mem a hx)]

/-- map only depends on the pointwise values of the function. -/
theorem map_congr_own {α β : Type} (l : List α) (f g : α → β)
    (h : ∀ a ∈ l, f a = g a) : l.map f = l.map g := by
  induction l with
  | nil => rfl
  | cons a l ih =>
    simp only [List.map_cons]
    rw [h a (List.mem_cons_self a l),
      ih fun x hx => h x (List.mem_cons_of_mem a hx)]

/-- get? commutes with map. -/
theorem get?_map_own {α β : Type} (l : List α) (f : α → β) :
    ∀ k, (l.map f).get? k = (l.get? k).map f := by
  induction l with
  | nil => intro k; cases k <;> rfl
  | cons a l ih =>
    intro k
    cases k with
    | zero => rfl
    | succ k => simp [ih k]

/-- In a duplicate-free list of identities at most one entry matches. -/
theorem nodup_countP_beq_le_one (l : List Nat) (hl : l.Nodup) (i : Nat) :
    l.countP (fun x => x == i) ≤ 1 := by
  induction l with
  | nil => simp
  | cons a l ih =>
    rw [List.countP_cons]
    have hnd := List.nodup_cons.mp hl
    by_cases hai : a = i
    · have h0 : l.countP (fun x => x == i) = 0 := by
        rw [List.countP_eq_zero]
        intro x hx hxi
        have hx2 : x = i := by simpa using hxi
        exact hnd.1 (by rw [hai, ← hx2]; exact hx)
      simp [h0, hai]
    · have hle := ih hnd.2
      have hne : (a == i) = false := by simpa using hai
      simp [hne]
      omega

/-- No event changes the identities in the registry, except that a
construction appends the new identity at the end. -/
theorem fstep_map_wid (e : FEv) (reg : List CEWidget) :
    (fstep e reg).map (fun w => w.wid) =
      (reg.map fun w => w.wid) ++ constructWids [e] := by
  cases e with
  | construct i win v sfx => simp [fstep, constructWids]
  | activate i under =>
    simp only [fstep, setToEdit, showInputField, sweepF, List.map_map,
      constructWids, List.append_nil]
    apply map_congr_own
    intro a _
    simp only [Function.comp_apply]
    split_ifs <;> rfl
  | defocus under =>
    simp only [fstep, sweepF, List.map_map, constructWids, List.append_nil]
    apply map_congr_own
    intro a _
    simp only [Function.comp_apply]
    split_ifs <;> rfl
  | edit i v =>
    simp only [fstep, List.map_map, constructWids, List.append_nil]
    apply map_congr_own
    intro a _
    simp only [Function.comp_apply]
    split_ifs <;> rfl
  | setVal i v =>
    simp only [fstep, List.map_map, constructWids, List.append_nil]
    apply map_congr_own
    intro a _
    simp only [Function.comp_apply]
    split_ifs <;> rfl

/-- A member of the sweep result comes from a registry member with the
same identity, and is visible only if that member was visible and under
the mouse. -/
theorem wid_of_mem_sweepF (under : List Nat) (reg : List CEWidget)
    (w : CEWidget) (hw : w ∈ sweepF under reg) :
    ∃ a ∈ reg, w.wid = a.wid ∧
      (w.inputVisible = true → a.inputVisible = true ∧ a.wid ∈ under) := by
  simp only [sweepF, List.mem_map] at hw
  obtain ⟨a, ha, rfl⟩ := hw
  refine ⟨a, ha, ?_, ?_⟩
  · split_ifs <;> rfl
  · intro hv
    by_cases h : a.inputVisible ∧ a.wid ∉ under
    · rw [if_pos h] at hv
      simp at hv
    · rw [if_neg h] at hv
      refine ⟨hv, ?_⟩
      by_contra hn
      exact h ⟨hv, hn⟩

/-- If every widget under the mouse is the activated one, every widget
visible after _setToEdit is the activated one. -/
theorem vis_wid_setToEdit (i : Nat) (under : List Nat) (reg : List CEWidget)
    (w : CEWidget) (hw : w ∈ setToEdit i under reg)
    (hv : w.inputVisible = true) (hub : ∀ j ∈ under, j = i) : w.wid = i := by
  simp only [setToEdit, showInputField, List.mem_map] at hw
  obtain ⟨b, hb, rfl⟩ := hw
  by_cases hbi : b.wid = i
  · rw [if_pos hbi]
    exact hbi
  · rw [if_neg hbi] at hv ⊢
    obtain ⟨a, _, hwid, himp⟩ := wid_of_mem_sweepF under reg b hb
    obtain ⟨_, hain⟩ := himp hv
    exact hwid.trans (hub a.wid hain)

/-- Each benign event keeps the count of widgets in input mode at most
one, provided widget identities are unique. -/
theorem visCount_fstep_le (e : FEv) (reg : List CEWidget)
    (hb : benignEv e = true)
    (hn : (reg.map fun w => w.wid).Nodup)
    (hc : reg.countP (fun w => w.inputVisible) ≤ 1) :
    (fstep e reg).countP (fun w => w.inputVisible) ≤ 1 := by
  cases e with
  | construct i win v sfx =>
    simp only [fstep, List.countP_append]
    have h0 : List.countP (fun w : CEWidget => w.inputVisible)
        [({ wid := i, window := win, inputVisible := false, value := v,
            labelText := addSuffix sfx (toString v), suffix := sfx } : CEWidget)] = 0 := rfl
    omega
  | activate i under =>
    have hub : ∀ j ∈ under, j = i := by
      simp only [benignEv, List.all_eq_true] at hb
      intro j hj
      simpa using hb j hj
    have hvis : ∀ w ∈ setToEdit i under reg,
        (fun w : CEWidget => w.inputVisible) w = true → (w.wid == i) = true := by
      intro w hw hv
      simpa using vis_wid_setToEdit i under reg w hw hv hub
    have h1 : (setToEdit i under reg).countP (fun w => w.inputVisible)
        ≤ (setToEdit i under reg).countP (fun w => w.wid == i) :=
      countP_le_of_imp _ _ _ hvis
    have hm : (setToEdit i under reg).map (fun w => w.wid) = reg.map fun w => w.wid := by
      have h := fstep_map_wid (FEv.activate i under) reg
      simpa [fstep, constructWids] using h
    have h2 : (setToEdit i under reg).countP (fun w => w.wid == i)
        = ((setToEdit i under reg).map fun w => w.wid).countP (fun x => x == i) := by
      rw [List.countP_map]
      rfl
    have h3 := nodup_countP_beq_le_one (reg.map fun w => w.wid) hn i
    rw [hm] at h2
    show (setToEdit i under reg).countP (fun w => w.inputVisible) ≤ 1
    omega
  | defocus under =>
    have hle : (sweepF under reg).countP (fun w => w.inputVisible)
        ≤ reg.countP (fun w => w.inputVisible) := by
      rw [sweepF, List.countP_map]
      apply countP_le_of_imp
      intro a _ hpa
      simp only [Function.comp_apply] at hpa
      by_cases h : a.inputVisible ∧ a.wid ∉ under
      · rw [if_pos h] at hpa
        simp at hpa
      · rw [if_neg h] at hpa
        exact hpa
    show (sweepF under reg).countP (fun w => w.inputVisible) ≤ 1
    omega
  | edit i v =>
    have heq : (fstep (FEv.edit i v) reg).countP (fun w => w.inputVisible)
        = reg.countP (fun w => w.inputVisible) := by
      simp only [fstep, List.countP_map]
      apply countP_congr_own
      intro a _
      simp only [Function.comp_apply]
      split_ifs <;> rfl
    rw [heq]
    exact hc
  | setVal i v =>
    have heq : (fstep (FEv.setVal i v) reg).countP (fun w => w.inputVisible)
        = reg.countP (fun w => w.inputVisible) := by
      simp only [fstep, List.countP_map]
      apply countP_congr_own
      intro a _
      simp only [Function.comp_apply]
      split_ifs <;> rfl
    rw [heq]
    exact hc

/-- Over a run on benign events from any registry with fresh identities
and at most one open editor, at most one editor stays open. -/
theorem frun_aux (tr : List FEv) :
    ∀ reg : List CEWidget,
      tr.all benignEv = true →
      ((reg.map fun w => w.wid) ++ constructWids tr).Nodup →
      reg.countP (fun w => w.inputVisible) ≤ 1 →
      (tr.foldl (fun s e => fstep e s) reg).countP (fun w => w.inputVisible) ≤ 1 := by
  induction tr with
  | nil => intro reg _ _ hc; simpa using hc
  | cons e tr ih =>
    intro reg hball hnod hc
    simp only [List.all_cons, Bool.and_eq_true] at hball
    have hsplit : constructWids (e :: tr) = constructWids [e] ++ constructWids tr := by
      cases e <;> simp [constructWids]
    rw [hsplit] at hnod
    have hnod2 : (((fstep e reg).map fun w => w.wid) ++ constructWids tr).Nodup := by
      rw [fstep_map_wid, List.append_assoc]
      exact hnod
    have hnreg : (reg.map fun w => w.wid).Nodup :=
      (List.sublist_append_left _ _).nodup hnod
    have hstep := visCount_fstep_le e reg hball.1 hnreg hc
    rw [List.foldl_cons]
    exact ih (fstep e reg) hball.2 hnod2 hstep

/-- C1 (amended): after any sequence of constructions with fresh widget
identities, label activations, focus-loss sweeps, mouse-press sweeps and
edits, in which no label is activated while the pointer is over the input
widget of a different widget, at most one registered widget in the whole
process has its input widget visible; in particular at most one per
top-level window. -/
theorem c1_single_open_editor (tr : List FEv)
    (hb : tr.all benignEv = true) (hn : (constructWids tr).Nodup) :
    (frun tr).countP (fun w => w.inputVisible) ≤ 1 ∧
    ∀ win : Nat,
      (frun tr).countP (fun w => w.inputVisible && w.window == win) ≤ 1 := by
  have hg : (frun tr).countP (fun w => w.inputVisible) ≤ 1 := by
    apply frun_aux tr [] hb (by simpa using hn) (by simp)
  refine ⟨hg, fun win => ?_⟩
  have hle := countP_le_of_imp (frun tr)
    (fun w => w.inputVisible && w.window == win) (fun w => w.inputVisible)
    (fun a _ h => by
      simp only [Bool.and_eq_true] at h
      exact h.1)
  omega

/-- C1 witness: a concrete benign trace with two widgets in one window,
where activations happen with the pointer over the activated widget only,
ends with at most one open editor. -/
theorem c1_single_open_editor_witness :
    ([FEv.construct 1 0 5 Option.none, FEv.construct 2 0 7 Option.none,
      FEv.activate 1 [1], FEv.defocus [], FEv.activate 2 [2]].all benignEv = true) ∧
    (frun [FEv.construct 1 0 5 Option.none, FEv.construct 2 0 7 Option.none,
      FEv.activate 1 [1], FEv.defocus [], FEv.activate 2 [2]]).countP
        (fun w => w.inputVisible) ≤ 1 :=
  ⟨by decide,
   (c1_single_open_editor
     [FEv.construct 1 0 5 Option.none, FEv.construct 2 0 7 Option.none,
      FEv.activate 1 [1], FEv.defocus [], FEv.activate 2 [2]]
     (by decide) (by decide)).1⟩

/-- C1 counterexample: activating a second widget while the pointer sits
over the input widget of the first (possible, e.g., activating the label
button with the keyboard) leaves two widgets of the same window in input
mode, so the per-window bound is not an unconditional invariant. -/
theorem c1_per_window_cx :
    ¬ atMostOnePerWindow (frun
      [FEv.construct 1 0 5 Option.none, FEv.construct 2 0 7 Option.none,
       FEv.activate 1 [], FEv.activate 2 [1]]) := by
  intro h
  exact absurd (h 0) (by decide)

/-- C2 (amended): label activation first runs the sweep and only then
shows the activated widget.  Pointwise over the registry: the activated
widget (by identity) ends with its input visible; every other registered
widget, whatever its window, ends in label mode if it was in input mode
and not under the pointer, and is unchanged otherwise.  The sweep is
process-wide, not limited to the window of the activated widget. -/
theorem c2_activation_sweep (reg : List CEWidget) (under : List Nat) (i k : Nat) :
    setToEdit i under reg = showInputField i (sweepF under reg) ∧
    (setToEdit i under reg).get? k = (reg.get? k).map (fun w =>
      if w.wid = i then { w with inputVisible := true }
      else if w.inputVisible ∧ w.wid ∉ under then { w with inputVisible := false }
      else w) := by
  refine ⟨rfl, ?_⟩
  simp only [setToEdit, showInputField, sweepF, List.map_map]
  rw [get?_map_own]
  cases hk : reg.get? k with
  | none => rfl
  | some a =>
    simp only [Option.map_some']
    congr 1
    simp only [Function.comp_apply]
    by_cases hs : a.inputVisible ∧ a.wid ∉ under
    · rw [if_pos hs]
    · rw [if_neg hs]

/-- C2 counterexample: widget 1 lives in window 0 and is in input mode;
activating widget 2, which lives in window 1, collapses widget 1 all the
same — the sweep does not leave widgets in other windows unchanged. -/
theorem c2_other_window_cx :
    (((frun [FEv.construct 1 0 5 Option.none, FEv.construct 2 1 7 Option.none,
        FEv.activate 1 []]).find? fun w => w.wid == 1).map
        (fun w => (w.window, w.inputVisible)) = some (0, true)) ∧
    (((fstep (FEv.activate 2 []) (frun [FEv.construct 1 0 5 Option.none,
        FEv.construct 2 1 7 Option.none, FEv.activate 1 []])).find?
        fun w => w.wid == 1).map
        (fun w => (w.window, w.inputVisible)) = some (0, false)) ∧
    (((frun [FEv.construct 1 0 5 Option.none, FEv.construct 2 1 7 Option.none,
        FEv.activate 1 []]).find? fun w => w.wid == 2).map
        (fun w => w.window) = some 1) := by
  refine ⟨by decide, by decide, by decide⟩

/-- QSpinBox operations keep the label equal to the suffixed rendering
of the native value: setValue rewrites it directly and the valueChanged
signal rewrites it on every change. -/
theorem spinStep_label (e : SpinEv) (s : SpinState)
    (h : s.labelText = addSuffix s.suffix (toString s.value)) :
    (spinStep e s).labelText
      = addSuffix (spinStep e s).suffix (toString (spinStep e s).value) := by
  cases e with
  | setVal v =>
    by_cases hv : v = s.value <;>
      simp [spinStep, spinSetValue, spinInputSetValue, hv]
  | userEdit v =>
    by_cases hv : v = s.value
    · simpa [spinStep, spinInputSetValue, hv] using h
    · simp [spinStep, spinInputSetValue, hv]

/-- Every reachable state of a spin widget has its label in sync with
its value. -/
theorem spinRun_label (v : Int) (sfx : Option String) (evs : List SpinEv) :
    (spinRun v sfx evs).labelText
      = addSuffix (spinRun v sfx evs).suffix (toString (spinRun v sfx evs).value) := by
  have hinit : (spinInit v sfx).labelText
      = addSuffix (spinInit v sfx).suffix (toString (spinInit v sfx).value) := by
    by_cases hv : v = (0 : Int) <;>
      simp [spinInit, spinSetValue, spinInputSetValue, hv]
  suffices haux : ∀ (l : List SpinEv) (s : SpinState),
      s.labelText = addSuffix s.suffix (toString s.value) →
      (l.foldl (fun s e => spinStep e s) s).labelText
        = addSuffix (l.foldl (fun s e => spinStep e s) s).suffix
            (toString (l.foldl (fun s e => spinStep e s) s).value) by
    exact haux evs (spinInit v sfx) hinit
  intro l
  induction l with
  | nil => intro s hs; simpa using hs
  | cons e l ih =>
    intro s hs
    rw [List.foldl_cons]
    exact ih _ (spinStep_label e s hs)

/-- QLineEdit operations keep the label equal to the suffixed native
text: the textChanged signal rewrites it on every change. -/
theorem lineStep_label (e : LineEv) (s : LineState)
    (h : s.labelText = addSuffix s.suffix s.text) :
    (lineStep e s).labelText = addSuffix (lineStep e s).suffix (lineStep e s).text := by
  cases e with
  | setVal v =>
    by_cases hv : pyStr v = s.text
    · simpa [lineStep, lineSetValue, lineInputSetText, hv] using h
    · simp [lineStep, lineSetValue, lineInputSetText, hv]
  | userEdit t =>
    by_cases hv : t = s.text
    · simpa [lineStep, lineInputSetText, hv] using h
    · simp [lineStep, lineInputSetText, hv]

/-- Every reachable state of a line widget has its label in sync with
its text. -/
theorem lineRun_label (v : PyVal) (sfx : Option String) (evs : List LineEv) :
    (lineRun v sfx evs).labelText
      = addSuffix (lineRun v sfx evs).suffix (lineRun v sfx evs).text := by
  have hinit : (lineInit v sfx).labelText
      = addSuffix (lineInit v sfx).suffix (lineInit v sfx).text := by
    by_cases hv : pyStr v = ("" : String) <;>
      simp [lineInit, lineSetValue, lineInputSetText, hv]
  suffices haux : ∀ (l : List LineEv) (s : LineState),
      s.labelText = addSuffix s.suffix s.text →
      (l.foldl (fun s e => lineStep e s) s).labelText
        = addSuffix (l.foldl (fun s e => lineStep e s) s).suffix
            (l.foldl (fun s e => lineStep e s) s).text by
    exact haux evs (lineInit v sfx) hinit
  intro l
  induction l with
  | nil => intro s hs; simpa using hs
  | cons e l ih =>
    intro s hs
    rw [List.foldl_cons]
    exact ih _ (lineStep_label e s hs)

/-- setValue with a QTime always leaves the label a rendering of the
current time: with the display format when the time changes (the signal
fires), with the hardcoded h:mm:ss a format when it does not. -/
theorem qtimeSetValue_qtime_rendered (t : QTimeV) (s : TimeState) :
    timeLabelRendered (qtimeSetValue (PyVal.qtime t) s).1 := by
  by_cases ht : t = s.time
  · exact ⟨"h:mm:ss a",
      by simp [qtimeSetValue, qtimeInputCheck, pyToStringHms, qtimeSetTime, ht]⟩
  · exact ⟨s.displayFormat,
      by simp [qtimeSetValue, qtimeInputCheck, pyToStringHms, qtimeSetTime, ht]⟩

/-- setValue preserves the rendering property for every argument: bad
types leave the state unchanged, datetime.time and False stop at the
AttributeError before touching label or time. -/
theorem qtimeSetValue_rendered (v : PyVal) (s : TimeState)
    (h : timeLabelRendered s) : timeLabelRendered (qtimeSetValue v s).1 := by
  obtain ⟨f, hf⟩ := h
  cases v with
  | qtime t => exact qtimeSetValue_qtime_rendered t s
  | dtime t =>
    exact ⟨f, by simpa [qtimeSetValue, qtimeInputCheck, pyToStringHms] using hf⟩
  | bool b =>
    cases b with
    | false =>
      exact ⟨f, by simpa [qtimeSetValue, qtimeInputCheck, pyToStringHms] using hf⟩
    | true => exact ⟨f, by simpa [qtimeSetValue, qtimeInputCheck] using hf⟩
  | str a => exact ⟨f, by simpa [qtimeSetValue, qtimeInputCheck] using hf⟩
  | int n => exact ⟨f, by simpa [qtimeSetValue, qtimeInputCheck] using hf⟩
  | pynone => exact ⟨f, by simpa [qtimeSetValue, qtimeInputCheck] using hf⟩
  | list xs => exact ⟨f, by simpa [qtimeSetValue, qtimeInputCheck] using hf⟩

/-- Every operation on the time variant preserves the rendering
property. -/
theorem timeStep_rendered (e : TimeEv) (s : TimeState)
    (h : timeLabelRendered s) : timeLabelRendered (timeStep e s) := by
  cases e with
  | setVal v => exact qtimeSetValue_rendered v s h
  | userEdit t =>
    by_cases ht : t = s.time
    · obtain ⟨f, hf⟩ := h
      exact ⟨f, by simpa [timeStep, qtimeSetTime, ht] using hf⟩
    · exact ⟨s.displayFormat, by simp [timeStep, qtimeSetTime, ht]⟩
  | setFmt f => exact ⟨f, by simp [timeStep, qtimeSetDisplayFormat]⟩

/-- Folding time operations preserves the rendering property. -/
theorem timeFold_rendered (evs : List TimeEv) : ∀ s0 : TimeState,
    timeLabelRendered s0 →
    timeLabelRendered (evs.foldl (fun s e => timeStep e s) s0) := by
  induction evs with
  | nil => intro s0 h; simpa using h
  | cons e evs ih =>
    intro s0 h
    rw [List.foldl_cons]
    exact ih _ (timeStep_rendered e s0 h)

/-- Every reachable state of a time widget has its label a rendering of
its current time. -/
theorem timeRun_rendered (v : PyVal) (fmt : String) (evs : List TimeEv)
    (s : TimeState) (h : timeRun v fmt evs = Except.ok s) :
    timeLabelRendered s := by
  cases hinit : timeInit v fmt with
  | error e =>
    simp only [timeRun, hinit] at h
    exact Except.noConfusion h
  | ok s0 =>
    simp only [timeRun, hinit] at h
    have h1 : evs.foldl (fun s e => timeStep e s) s0 = s := by simpa using h
    have h0 : timeLabelRendered s0 := by
      cases hchk : qtimeInputCheck v with
      | error e =>
        simp only [timeInit, hchk] at hinit
        exact Except.noConfusion hinit
      | ok cv =>
        simp only [timeInit, hchk] at hinit
        have h2 : (qtimeSetValue (PyVal.qtime cv)
            { time := { h := 0, m := 0, s := 0, ms := 0 },
              labelText := addSuffix Option.none
                (pyStr (PyVal.qtime { h := 0, m := 0, s := 0, ms := 0 })),
              displayFormat := fmt, currentVal := some cv }).1 = s0 := by
          simpa using hinit
        rw [← h2]
        exact qtimeSetValue_qtime_rendered cv _
    rw [← h1]
    exact timeFold_rendered evs s0 h0

/-- C3 (amended): when an input widget loses focus the sweep runs, and
every widget not under the pointer is in label mode afterwards; a widget
under the pointer keeps its input open.  The label text equals the
adapter value rendered with the configured suffix for the QSpinBox and
QLineEdit variants, whose change-signal handlers keep it in sync in
every reachable state; for QTimeEdit the label is always a rendering of
the current time, though possibly in the hardcoded h:mm:ss a format of
setValue rather than the configured display format; for QComboBox the
clause fails (see the counterexample). -/
theorem c3_defocus_label_mode :
    (∀ (tr : List FEv) (under : List Nat) (w : CEWidget),
      w ∈ fstep (FEv.defocus under) (frun tr) →
      w.wid ∉ under → w.inputVisible = false) ∧
    (∀ (v : Int) (sfx : Option String) (evs : List SpinEv),
      (spinRun v sfx evs).labelText
        = addSuffix (spinRun v sfx evs).suffix (toString (spinRun v sfx evs).value)) ∧
    (∀ (v : PyVal) (sfx : Option String) (evs : List LineEv),
      (lineRun v sfx evs).labelText
        = addSuffix (lineRun v sfx evs).suffix (lineRun v sfx evs).text) ∧
    (∀ (v : PyVal) (fmt : String) (evs : List TimeEv) (s : TimeState),
      timeRun v fmt evs = Except.ok s → timeLabelRendered s) := by
  refine ⟨?_, spinRun_label, lineRun_label, timeRun_rendered⟩
  intro tr under w hw hnin
  have hsw : w ∈ sweepF under (frun tr) := hw
  cases hv : w.inputVisible with
  | false => rfl
  | true =>
    obtain ⟨a, _, hwid, himp⟩ := wid_of_mem_sweepF under (frun tr) w hsw
    obtain ⟨_, hain⟩ := himp hv
    exact absurd (hwid ▸ hain) hnin

/-- C3 witness: a spin widget with suffix kg and value 5, opened and
then swept with the pointer elsewhere, is back in label mode; and a
freshly constructed time widget has its label rendered from its time. -/
theorem c3_defocus_label_mode_witness :
    (({ wid := 1, window := 0, inputVisible := false, value := 5,
        labelText := "5 kg", suffix := some "kg" } : CEWidget) ∈
      fstep (FEv.defocus []) (frun [FEv.construct 1 0 5 (some "kg"),
        FEv.activate 1 [1]])) ∧
    (({ wid := 1, window := 0, inputVisible := false, value := 5,
        labelText := "5 kg", suffix := some "kg" } : CEWidget).inputVisible = false) ∧
    timeLabelRendered
      { time := { h := 7, m := 30, s := 0, ms := 0 },
        labelText := qtimeToString "HH:mm" { h := 7, m := 30, s := 0, ms := 0 },
        displayFormat := "HH:mm",
        currentVal := some { h := 7, m := 30, s := 0, ms := 0 } } :=
  ⟨by decide,
   c3_defocus_label_mode.1 [FEv.construct 1 0 5 (some "kg"), FEv.activate 1 [1]] []
     { wid := 1, window := 0, inputVisible := false, value := 5,
       labelText := "5 kg", suffix := some "kg" } (by decide) (by decide),
   c3_defocus_label_mode.2.2.2
     (PyVal.qtime { h := 7, m := 30, s := 0, ms := 0 }) "HH:mm" []
     { time := { h := 7, m := 30, s := 0, ms := 0 },
       labelText := qtimeToString "HH:mm" { h := 7, m := 30, s := 0, ms := 0 },
       displayFormat := "HH:mm",
       currentVal := some { h := 7, m := 30, s := 0, ms := 0 } } rfl⟩

/-- C3 counterexample, three independent refutations of the claim as
stated: a widget whose input widget is under the pointer at focus loss
stays in input mode; a combo widget constructed from the item list with
only a, after setValue of b, shows label b while its current value is
the empty string, so after any focus loss the label does not equal the
value; and a time widget constructed with display format HH:mm, after
setValue of its unchanged current time, carries a label not rendered in
the configured format (setValue hardcodes h:mm:ss a). -/
theorem c3_focus_loss_cx :
    (((fstep (FEv.defocus [1]) (frun [FEv.construct 1 0 5 Option.none,
        FEv.activate 1 []])).find? fun w => w.wid == 1).map
      (fun w => w.inputVisible) = some true) ∧
    (comboInit (PyVal.list [PyVal.str "a"]) =
      Except.ok { items := ["a"], currentIndex := 0, labelText := "a" }) ∧
    ((comboSetValue (PyVal.str "b")
        { items := ["a"], currentIndex := 0, labelText := "a" }).labelText = "b") ∧
    (comboGetValue (comboSetValue (PyVal.str "b")
        { items := ["a"], currentIndex := 0, labelText := "a" }) = "") ∧
    (timeRun (PyVal.qtime { h := 7, m := 30, s := 0, ms := 0 }) "HH:mm" [] =
      Except.ok
        { time := { h := 7, m := 30, s := 0, ms := 0 },
          labelText := qtimeToString "HH:mm" { h := 7, m := 30, s := 0, ms := 0 },
          displayFormat := "HH:mm",
          currentVal := some { h := 7, m := 30, s := 0, ms := 0 } }) ∧
    ((qtimeSetValue (PyVal.qtime { h := 7, m := 30, s := 0, ms := 0 })
        { time := { h := 7, m := 30, s := 0, ms := 0 },
          labelText := qtimeToString "HH:mm" { h := 7, m := 30, s := 0, ms := 0 },
          displayFormat := "HH:mm",
          currentVal := some { h := 7, m := 30, s := 0, ms := 0 } }).1.labelText ≠
      qtimeToString "HH:mm" { h := 7, m := 30, s := 0, ms := 0 }) := by
  refine ⟨by decide, rfl, by decide, by decide, rfl, by decide⟩

/-- The wrapping pass does not change the set of windows or their order,
only handlers. -/
theorem wrapPass_map_wid (ws : List TopWin) : ∀ m : List Nat,
    ((wrapPass ws m).1.map fun w => w.wid) = ws.map fun w => w.wid := by
  induction ws with
  | nil => intro m; rfl
  | cons w ws ih =>
    intro m
    by_cases hm : w.wid ∈ m
    · simp [wrapPass, hm, ih]
    · simp [wrapPass, hm, ih]

/-- _top_widgets_modified only grows during a wrapping pass. -/
theorem wrapPass_modified_mono (ws : List TopWin) : ∀ (m : List Nat) (x : Nat),
    x ∈ m → x ∈ (wrapPass ws m).2 := by
  induction ws with
  | nil => intro m x hx; simpa [wrapPass] using hx
  | cons w ws ih =>
    intro m x hx
    by_cases hm : w.wid ∈ m
    · simpa [wrapPass, hm] using ih m x hx
    · simpa [wrapPass, hm] using ih (m ++ [w.wid]) x (List.mem_append_left _ hx)

/-- Everything a wrapping pass records was recorded before or is a live
window of the pass. -/
theorem wrapPass_modified_src (ws : List TopWin) : ∀ (m : List Nat) (x : Nat),
    x ∈ (wrapPass ws m).2 → x ∈ m ∨ x ∈ ws.map fun w => w.wid := by
  induction ws with
  | nil => intro m x hx; exact Or.inl (by simpa [wrapPass] using hx)
  | cons w ws ih =>
    intro m x hx
    by_cases hm : w.wid ∈ m
    · have hx2 : x ∈ (wrapPass ws m).2 := by simpa [wrapPass, hm] using hx
      rcases ih m x hx2 with h1 | h1
      · exact Or.inl h1
      · right
        rw [List.map_cons]
        exact List.mem_cons_of_mem _ h1
    · have hx2 : x ∈ (wrapPass ws (m ++ [w.wid])).2 := by
        simpa [wrapPass, hm] using hx
      rcases ih (m ++ [w.wid]) x hx2 with h1 | h1
      · rcases List.mem_append.mp h1 with h2 | h2
        · exact Or.inl h2
        · right
          rw [List.map_cons, List.mem_singleton.mp h2]
          exact List.mem_cons_self _ _
      · right
        rw [List.map_cons]
        exact List.mem_cons_of_mem _ h1

/-- A wrapping pass preserves the handler discipline: recorded windows
are wrapped exactly once, unrecorded windows keep the original handler. -/
theorem wrapPass_handlers (ws : List TopWin) : ∀ m : List Nat,
    (ws.map fun w => w.wid).Nodup →
    (∀ w ∈ ws, (w.wid ∈ m → w.handler = .wrapped .original) ∧
               (w.wid ∉ m → w.handler = .original)) →
    ∀ w ∈ (wrapPass ws m).1,
      (w.wid ∈ (wrapPass ws m).2 → w.handler = .wrapped .original) ∧
      (w.wid ∉ (wrapPass ws m).2 → w.handler = .original) := by
  induction ws with
  | nil => intro m _ _ w hw; simp [wrapPass] at hw
  | cons a ws ih =>
    intro m hnd h w hw
    have hnd2 : (ws.map fun x => x.wid).Nodup := by
      rw [List.map_cons] at hnd
      exact hnd.of_cons
    have hanotin : a.wid ∉ ws.map fun x => x.wid := by
      rw [List.map_cons] at hnd
      exact (List.nodup_cons.mp hnd).1
    by_cases hm : a.wid ∈ m
    · have hmod : (wrapPass (a :: ws) m).2 = (wrapPass ws m).2 := by
        simp [wrapPass, hm]
      have hw2 : w = a ∨ w ∈ (wrapPass ws m).1 := by
        have hmem : w ∈ a :: (wrapPass ws m).1 := by simpa [wrapPass, hm] using hw
        exact List.mem_cons.mp hmem
      rw [hmod]
      rcases hw2 with rfl | hw2
      · refine ⟨fun _ => (h w (List.mem_cons_self _ _)).1 hm, fun hnin => ?_⟩
        exact absurd (wrapPass_modified_mono ws m w.wid hm) hnin
      · exact ih m hnd2 (fun x hx => h x (List.mem_cons_of_mem _ hx)) w hw2
    · have ha := (h a (List.mem_cons_self a ws)).2 hm
      have hmod : (wrapPass (a :: ws) m).2 = (wrapPass ws (m ++ [a.wid])).2 := by
        simp [wrapPass, hm]
      have hw2 : w = { a with handler := .wrapped a.handler } ∨
          w ∈ (wrapPass ws (m ++ [a.wid])).1 := by
        have hmem : w ∈ { a with handler := .wrapped a.handler } ::
            (wrapPass ws (m ++ [a.wid])).1 := by
          simpa [wrapPass, hm] using hw
        exact List.mem_cons.mp hmem
      rw [hmod]
      rcases hw2 with rfl | hw2
      · constructor
        · intro _
          show Handler.wrapped a.handler = Handler.wrapped Handler.original
          rw [ha]
        · intro hnin
          exfalso
          apply hnin
          show a.wid ∈ (wrapPass ws (m ++ [a.wid])).2
          exact wrapPass_modified_mono ws (m ++ [a.wid]) a.wid (by simp)
      · have hcond : ∀ x ∈ ws,
            (x.wid ∈ m ++ [a.wid] → x.handler = .wrapped .original) ∧
            (x.wid ∉ m ++ [a.wid] → x.handler = .original) := by
          intro x hx
          have hx1 := h x (List.mem_cons_of_mem _ hx)
          constructor
          · intro hmem
            rcases List.mem_append.mp hmem with h1 | h1
            · exact hx1.1 h1
            · exfalso
              apply hanotin
              rw [← List.mem_singleton.mp h1]
              exact List.mem_map_of_mem _ hx
          · intro hnmem
            exact hx1.2 fun hmm => hnmem (List.mem_append_left _ hmm)
        exact ih (m ++ [a.wid]) hnd2 hcond w hw2

/-- Every step of the wrapping system preserves the invariant. -/
theorem WInv_wstep (e : WEv) (s : WrapState) (h : WInv s) : WInv (wstep e s) := by
  obtain ⟨hnd, hsub, hh⟩ := h
  cases e with
  | newWin i =>
    by_cases hex : s.wins.any (fun w => w.wid == i) = true
    · simp only [wstep, if_pos hex]
      exact ⟨hnd, hsub, hh⟩
    · have hninw : i ∉ s.wins.map fun w => w.wid := by
        intro hmem
        rcases List.mem_map.mp hmem with ⟨w, hw, hwid⟩
        exact hex (List.any_eq_true.mpr ⟨w, hw, by simp [hwid]⟩)
      simp only [wstep, if_neg hex]
      refine ⟨?_, ?_, ?_⟩
      · rw [List.map_append]
        refine List.Nodup.append hnd (by simp) ?_
        intro x hx1 hx2
        have hx3 : x = i := by simpa using hx2
        exact hninw (hx3 ▸ hx1)
      · intro x hx
        rw [List.map_append]
        exact List.mem_append_left _ (hsub x hx)
      · intro w hw
        rcases List.mem_append.mp hw with h1 | h1
        · exact hh w h1
        · have h2 := List.mem_singleton.mp h1
          subst h2
          exact ⟨fun hmem => absurd (hsub _ hmem) hninw, fun _ => rfl⟩
  | constructQCE =>
    refine ⟨?_, ?_, ?_⟩
    · show ((wrapPass s.wins s.modified).1.map fun w => w.wid).Nodup
      rw [wrapPass_map_wid]
      exact hnd
    · intro x hx
      show x ∈ (wrapPass s.wins s.modified).1.map fun w => w.wid
      rw [wrapPass_map_wid]
      rcases wrapPass_modified_src s.wins s.modified x hx with h1 | h1
      · exact hsub x h1
      · exact h1
    · exact wrapPass_handlers s.wins s.modified hnd hh

/-- The invariant holds in every reachable state of the wrapping system. -/
theorem WInv_wrun (tr : List WEv) : WInv (wrun tr) := by
  suffices h : ∀ (tr2 : List WEv) (s : WrapState), WInv s →
      WInv (tr2.foldl (fun s e => wstep e s) s) by
    refine h tr _ ⟨by simp, by simp, by simp⟩
  intro tr2
  induction tr2 with
  | nil => intro s hs; simpa using hs
  | cons e tr2 ih =>
    intro s hs
    rw [List.foldl_cons]
    exact ih _ (WInv_wstep e s hs)

/-- C8: over any interleaving of window creations and QClickEdit
constructions, every top-level window has its mousePressEvent handler
either untouched or wrapped exactly once, never re-wrapped; and the
wrapped handler runs the original handler on the event first and the
defocus sweep afterwards. -/
theorem c8_wrap_once (tr : List WEv) (w : TopWin) (hw : w ∈ (wrun tr).wins) :
    (w.handler = Handler.original ∨ w.handler = Handler.wrapped Handler.original) ∧
    ∀ (α : Type) (orig sweepAct : α → α) (st : α),
      runHandler orig sweepAct w.handler st = orig st ∨
      runHandler orig sweepAct w.handler st = sweepAct (orig st) := by
  have hInv := WInv_wrun tr
  have h3 := hInv.2.2 w hw
  have hd : w.handler = Handler.original ∨
      w.handler = Handler.wrapped Handler.original := by
    by_cases hm : w.wid ∈ (wrun tr).modified
    · exact Or.inr (h3.1 hm)
    · exact Or.inl (h3.2 hm)
  refine ⟨hd, ?_⟩
  intro α orig sweepAct st
  rcases hd with h | h <;> rw [h]
  · exact Or.inl rfl
  · exact Or.inr rfl

/-- C8 witness: one window, two constructions; the window ends wrapped
exactly once. -/
theorem c8_wrap_once_witness :
    (({ wid := 0, handler := Handler.wrapped Handler.original } : TopWin) ∈
      (wrun [WEv.newWin 0, WEv.constructQCE, WEv.constructQCE]).wins) ∧
    (({ wid := 0, handler := Handler.wrapped Handler.original } : TopWin).handler =
        Handler.original ∨
      ({ wid := 0, handler := Handler.wrapped Handler.original } : TopWin).handler =
        Handler.wrapped Handler.original) :=
  ⟨by decide,
   (c8_wrap_once [WEv.newWin 0, WEv.constructQCE, WEv.constructQCE]
     { wid := 0, handler := Handler.wrapped Handler.original } (by decide)).1⟩
